import Mathlib

/-
Verification of the local encrypted credential vault of mcp-mail-manager.

Shallow embedding of src/lib/crypto.ts and src/lib/accounts.ts (plus the
account-building part of src/tools/add-account.ts).  JavaScript strings are
modelled as `List Char`; the AEAD primitive (Node aes-256-gcm) and the
scrypt KDF are external library code, so they are modelled abstractly: the
cipher as a structure whose decryption inverts encryption, the KDF as an
opaque function parameter.  Fallible operations return `Except`; the
filesystem state touched by an operation is passed and returned
explicitly.
-/

namespace MailVault

/-! ## JavaScript string helpers

`String.prototype.split(sep)` for a one-character separator, modelled on
`List Char`.  `"a:b".split(":") = ["a","b"]`, `"".split(":") = [""]`. -/

def splitOnChar (sep : Char) : List Char → List (List Char)
  | [] => [[]]
  | c :: rest =>
    match splitOnChar sep rest with
    | [] => [[]]
    | s :: ss => if c = sep then [] :: s :: ss else (c :: s) :: ss

/-- JavaScript `String.prototype.trim` (whitespace characters relevant to a
key file: space, newline, tab, carriage return). -/
def isJsSpace (c : Char) : Bool :=
  c = ' ' || c = '\n' || c = '\t' || c = '\r'

def trimChars (l : List Char) : List Char :=
  ((l.dropWhile isJsSpace).reverse.dropWhile isJsSpace).reverse

/-! ## Field cipher (src/lib/crypto.ts): configuration constants -/

def PREFIX_LOCAL : List Char := "enc:local:".data

def SCRYPT_SALT : List Char := "mcp-mail-manager-salt-v1".data

def KEY_LENGTH : Nat := 32

/-- Errors thrown by the cipher layer: the explicit
`Invalid local encrypted format` and `Unknown encryption format` throws of
decryptLocal/decrypt, and the authentication failure raised by
`decipher.final` when the GCM tag does not verify. -/
inductive CryptoError where
  | malformedFormat
  | authFailed
  | unknownFormat
deriving DecidableEq, Repr

/-- Abstract AEAD primitive standing for Node aes-256-gcm with base64
output encoding.  `enc key iv plaintext` returns the (encoded) auth tag and
ciphertext; `dec` returns `none` exactly when authentication fails.
`dec_enc` is the defining correctness property of the library cipher. -/
structure AEAD where
  enc : List Nat → List Char → List Char → List Char × List Char
  dec : List Nat → List Char → List Char → List Char → Option (List Char)
  dec_enc : ∀ k iv s, dec k iv (enc k iv s).1 (enc k iv s).2 = some s

/-- A concrete (toy) instance of the AEAD interface, used to evaluate the
model on closed inputs. -/
def plainAEAD : AEAD where
  enc := fun _ _ s => (['t'], s)
  dec := fun _ _ _ c => some c
  dec_enc := fun _ _ _ => rfl

/-- Model of `isEncrypted(value)`: true iff the value starts with the format tag. -/
def isEncrypted (value : List Char) : Bool :=
  PREFIX_LOCAL.isPrefixOf value

/-- Model of `encryptLocal(plaintext)`: fresh-iv AEAD encryption, encoded as
`enc:local:<iv>:<authTag>:<ciphertext>`.  The fresh random iv (already in
its base64 text form) is passed explicitly. -/
def encryptLocal (C : AEAD) (k : List Nat) (iv : List Char) (plaintext : List Char) :
    List Char :=
  PREFIX_LOCAL ++ iv ++ ':' :: (C.enc k iv plaintext).1 ++ ':' :: (C.enc k iv plaintext).2

/-- Model of `decryptLocal(encrypted)`: strip the tag, split the three
colon-delimited components (throwing on any other component count),
authenticate and decrypt. -/
def decryptLocal (C : AEAD) (k : List Nat) (encrypted : List Char) :
    Except CryptoError (List Char) :=
  match splitOnChar ':' (encrypted.drop PREFIX_LOCAL.length) with
  | [ivs, tag, ct] =>
    match C.dec k ivs tag ct with
    | some s => .ok s
    | none => .error .authFailed
  | _ => .error .malformedFormat

/-- Model of `encrypt(plaintext)`: no-op on falsy (empty) or already-tagged input,
otherwise `encryptLocal`. -/
def encrypt (C : AEAD) (k : List Nat) (iv : List Char) (plaintext : List Char) :
    List Char :=
  if plaintext = [] ∨ isEncrypted plaintext then plaintext
  else encryptLocal C k iv plaintext

/-- Model of `decrypt(encrypted)`: no-op on falsy or untagged input; tagged input is
dispatched to `decryptLocal`; any other format would be rejected. -/
def decrypt (C : AEAD) (k : List Nat) (encrypted : List Char) :
    Except CryptoError (List Char) :=
  if encrypted = [] ∨ ¬ isEncrypted encrypted then .ok encrypted
  else if PREFIX_LOCAL.isPrefixOf encrypted then decryptLocal C k encrypted
  else .error .unknownFormat

def isOkE {ε α : Type} : Except ε α → Bool
  | .ok _ => true
  | .error _ => false

/-! ## Key manager (getLocalMasterKey) -/

inductive KeyError where
  | keyFileUnreadable
deriving DecidableEq, Repr

/-- Process environment and filesystem state seen by `getLocalMasterKey`:
the `MCP_MASTER_KEY` variable, the key file (absent, unreadable, or its
contents), and the base64 text of the 32 random bytes that would be drawn
if a new key had to be generated. -/
structure KeyEnv where
  envKey : Option (List Char)
  keyFile : Option (Except Unit (List Char))
  freshSecret : List Char

/-- JS truthiness of an optional string: present and non-empty. -/
def truthyStr : Option (List Char) → Bool
  | none => false
  | some s => !s.isEmpty

/-- Result of key resolution: the derived key, and the key-file write
(contents and mode) performed by the generation branch, if any. -/
structure KeyResult where
  key : List Nat
  fileWrite : Option (List Char × Nat)
deriving DecidableEq

/-- Model of `getLocalMasterKey()`.  `kdf` stands for `scryptSync`; an unreadable
key file makes `readFileSync` throw, which propagates (there is no catch
around it). -/
def getLocalMasterKey (kdf : List Char → List Char → Nat → List Nat) (env : KeyEnv) :
    Except KeyError KeyResult :=
  if truthyStr env.envKey then
    .ok ⟨kdf (env.envKey.getD []) SCRYPT_SALT KEY_LENGTH, none⟩
  else
    match env.keyFile with
    | some (.ok data) => .ok ⟨kdf (trimChars data) SCRYPT_SALT KEY_LENGTH, none⟩
    | some (.error _) => .error .keyFileUnreadable
    | none => .ok ⟨kdf env.freshSecret SCRYPT_SALT KEY_LENGTH, some (env.freshSecret, 0o600)⟩

/-! ## Credential store (src/lib/accounts.ts): data model -/

inductive EmailProvider where
  | gmail | outlook | yahoo | icloud | protonmail | fastmail
  | zoho | aol | gmx | mailru | yandex | custom
deriving DecidableEq, Repr

inductive AuthType where
  | password | oauth2 | xoauth2
deriving DecidableEq, Repr

structure ImapConfig where
  host : List Char
  port : Nat
  tls : Bool
deriving DecidableEq, Repr

structure SmtpConfig where
  host : List Char
  port : Nat
  secure : Bool
deriving DecidableEq, Repr

structure AuthConfig where
  type : AuthType
  user : List Char
  password : Option (List Char) := none
  accessToken : Option (List Char) := none
  refreshToken : Option (List Char) := none
  clientId : Option (List Char) := none
  clientSecret : Option (List Char) := none
  tokenExpiry : Option Nat := none
deriving DecidableEq, Repr

/-- An account record.  The optional `sync` settings of the interface are
omitted: no store operation reads or writes them. -/
structure EmailAccount where
  id : List Char
  email : List Char
  name : Option (List Char) := none
  provider : EmailProvider
  enabled : Bool
  imap : ImapConfig
  smtp : SmtpConfig
  auth : AuthConfig
deriving DecidableEq, Repr

def SENSITIVE_AUTH_FIELDS : List (List Char) :=
  ["password".data, "accessToken".data, "refreshToken".data, "clientSecret".data]

/-- The keys a `PROVIDER_PRESETS` entry carries (a `Partial<EmailAccount>`
containing exactly `provider`, `imap` and `smtp`). -/
structure ProviderPreset where
  provider : EmailProvider
  imap : ImapConfig
  smtp : SmtpConfig
deriving DecidableEq, Repr

def PROVIDER_PRESETS : EmailProvider → ProviderPreset
  | .gmail =>
    ⟨.gmail, ⟨"imap.gmail.com".data, 993, true⟩, ⟨"smtp.gmail.com".data, 587, false⟩⟩
  | .outlook =>
    ⟨.outlook, ⟨"outlook.office365.com".data, 993, true⟩, ⟨"smtp.office365.com".data, 587, false⟩⟩
  | .yahoo =>
    ⟨.yahoo, ⟨"imap.mail.yahoo.com".data, 993, true⟩, ⟨"smtp.mail.yahoo.com".data, 587, false⟩⟩
  | .icloud =>
    ⟨.icloud, ⟨"imap.mail.me.com".data, 993, true⟩, ⟨"smtp.mail.me.com".data, 587, false⟩⟩
  | .protonmail =>
    ⟨.protonmail, ⟨"127.0.0.1".data, 1143, false⟩, ⟨"127.0.0.1".data, 1025, false⟩⟩
  | .fastmail =>
    ⟨.fastmail, ⟨"imap.fastmail.com".data, 993, true⟩, ⟨"smtp.fastmail.com".data, 587, false⟩⟩
  | .zoho =>
    ⟨.zoho, ⟨"imap.zoho.com".data, 993, true⟩, ⟨"smtp.zoho.com".data, 587, false⟩⟩
  | .aol =>
    ⟨.aol, ⟨"imap.aol.com".data, 993, true⟩, ⟨"smtp.aol.com".data, 587, false⟩⟩
  | .gmx =>
    ⟨.gmx, ⟨"imap.gmx.com".data, 993, true⟩, ⟨"mail.gmx.com".data, 587, false⟩⟩
  | .mailru =>
    ⟨.mailru, ⟨"imap.mail.ru".data, 993, true⟩, ⟨"smtp.mail.ru".data, 587, false⟩⟩
  | .yandex =>
    ⟨.yandex, ⟨"imap.yandex.com".data, 993, true⟩, ⟨"smtp.yandex.com".data, 587, false⟩⟩
  | .custom =>
    ⟨.custom, ⟨[], 993, true⟩, ⟨[], 587, false⟩⟩

def toLowerChars (l : List Char) : List Char :=
  l.map Char.toLower

/-- Model of `detectProvider(email)`: look up the lower-cased domain part in the
static domain table, defaulting to `custom`. -/
def detectProvider (email : List Char) : EmailProvider :=
  match (splitOnChar '@' email)[1]? with
  | none => .custom
  | some d =>
    let domain := toLowerChars d
    if domain = [] then .custom
    else if domain = "gmail.com".data then .gmail
    else if domain = "googlemail.com".data then .gmail
    else if domain = "outlook.com".data then .outlook
    else if domain = "hotmail.com".data then .outlook
    else if domain = "live.com".data then .outlook
    else if domain = "msn.com".data then .outlook
    else if domain = "yahoo.com".data then .yahoo
    else if domain = "yahoo.fr".data then .yahoo
    else if domain = "yahoo.co.uk".data then .yahoo
    else if domain = "ymail.com".data then .yahoo
    else if domain = "icloud.com".data then .icloud
    else if domain = "me.com".data then .icloud
    else if domain = "mac.com".data then .icloud
    else if domain = "protonmail.com".data then .protonmail
    else if domain = "proton.me".data then .protonmail
    else if domain = "pm.me".data then .protonmail
    else if domain = "fastmail.com".data then .fastmail
    else if domain = "fastmail.fm".data then .fastmail
    else if domain = "zoho.com".data then .zoho
    else if domain = "aol.com".data then .aol
    else if domain = "gmx.com".data then .gmx
    else if domain = "gmx.fr".data then .gmx
    else if domain = "gmx.de".data then .gmx
    else if domain = "mail.ru".data then .mailru
    else if domain = "yandex.ru".data then .yandex
    else if domain = "yandex.com".data then .yandex
    else .custom

/-! ## Credential store: field-level encryption and decryption -/

/-- One step of the decryptAccount loop on one sensitive field: decrypt a
populated, tagged value, keeping the stored value on a decryption failure;
the Bool reports whether a failure was logged for this field. -/
def decField (C : AEAD) (k : List Nat) (v : Option (List Char)) :
    Option (List Char) × Bool :=
  match v with
  | some value =>
    if !value.isEmpty && isEncrypted value then
      match decrypt C k value with
      | .ok p => (some p, false)
      | .error _ => (some value, true)
    else (some value, false)
  | none => (none, false)

/-- Model of `decryptAccount(account)`: decrypt each sensitive auth field, collecting
the names of the fields whose decryption failed (the console.error log). -/
def decryptAccount (C : AEAD) (k : List Nat) (account : EmailAccount) :
    EmailAccount × List (List Char) :=
  let rp := decField C k account.auth.password
  let ra := decField C k account.auth.accessToken
  let rr := decField C k account.auth.refreshToken
  let rc := decField C k account.auth.clientSecret
  let failed :=
    (if rp.2 then ["password".data] else []) ++
    (if ra.2 then ["accessToken".data] else []) ++
    (if rr.2 then ["refreshToken".data] else []) ++
    (if rc.2 then ["clientSecret".data] else [])
  ({ account with
      auth := { account.auth with
        password := rp.1, accessToken := ra.1,
        refreshToken := rr.1, clientSecret := rc.1 } },
   failed)

/-- One step of the encryptAccount loop on one sensitive field. -/
def encField (C : AEAD) (k : List Nat) (iv : List Char) (v : Option (List Char)) :
    Option (List Char) :=
  match v with
  | some value =>
    if !value.isEmpty && !isEncrypted value then some (encrypt C k iv value)
    else some value
  | none => none

/-- The four fresh ivs drawn by the four encrypt calls of one
encryptAccount run. -/
structure Ivs where
  iv1 : List Char
  iv2 : List Char
  iv3 : List Char
  iv4 : List Char

/-- Model of `encryptAccount(account)`: encrypt each populated, untagged sensitive
auth field. -/
def encryptAccount (C : AEAD) (k : List Nat) (ivs : Ivs) (account : EmailAccount) :
    EmailAccount :=
  { account with
    auth := { account.auth with
      password := encField C k ivs.iv1 account.auth.password,
      accessToken := encField C k ivs.iv2 account.auth.accessToken,
      refreshToken := encField C k ivs.iv3 account.auth.refreshToken,
      clientSecret := encField C k ivs.iv4 account.auth.clientSecret } }

/-! ## Credential store: document-level operations -/

/-- The accounts.json file as the store sees it: missing, present but not
parseable as JSON, or a parsed list of records. -/
inductive AccountsFile where
  | absent
  | corrupt
  | doc (accounts : List EmailAccount)
deriving DecidableEq, Repr

/-- The raw record list an operation starts from: both a missing file and a
JSON.parse failure yield the empty list. -/
def rawOf : AccountsFile → List EmailAccount
  | .absent => []
  | .corrupt => []
  | .doc accounts => accounts

/-- Model of `getAccounts()` (the listAccounts read): absent or unparseable document
reads as empty; every stored record is decrypted field by field. -/
def getAccounts (C : AEAD) (k : List Nat) : AccountsFile → List EmailAccount
  | .absent => []
  | .corrupt => []
  | .doc accounts => accounts.map (fun a => (decryptAccount C k a).1)

/-- Model of `getAccount(id)`: the decrypted list filtered by identifier, `none`
when not found. -/
def getAccount (C : AEAD) (k : List Nat) (id : List Char) (fs : AccountsFile) :
    Option EmailAccount :=
  (getAccounts C k fs).find? (fun a => decide (a.id = id))

/-- Model of `rawAccounts.findIndex((a) => a.id === account.id)`, as an optional
index. -/
def findIndexById (id : List Char) : List EmailAccount → Option Nat
  | [] => none
  | a :: rest => if a.id = id then some 0 else (findIndexById id rest).map Nat.succ

/-- The `{ ...preset, ...account }` shallow spread of addAccount.  A preset
key survives only where the account object lacks that key; an account
object always carries `provider`, `imap` and `smtp`, so every preset
component is overridden by the account wholesale (nested endpoint fields
such as `imap.host` are never merged individually). -/
def spreadPresetAccount (_preset : ProviderPreset) (account : EmailAccount) :
    EmailAccount :=
  { id := account.id, email := account.email, name := account.name,
    provider := account.provider, enabled := account.enabled,
    imap := account.imap, smtp := account.smtp, auth := account.auth }

def applyPreset (account : EmailAccount) : EmailAccount :=
  spreadPresetAccount (PROVIDER_PRESETS account.provider) account

/-- Model of `addAccount(account)` (the upsert): read the raw document, apply the
provider preset spread, encrypt sensitive fields, then replace the record
at the first matching identifier or append, and write the document back. -/
def addAccount (C : AEAD) (k : List Nat) (ivs : Ivs) (account : EmailAccount)
    (fs : AccountsFile) : AccountsFile :=
  let rawAccounts := rawOf fs
  let merged := applyPreset account
  let encryptedAccount := encryptAccount C k ivs merged
  match findIndexById merged.id rawAccounts with
  | some i => .doc (rawAccounts.set i encryptedAccount)
  | none => .doc (rawAccounts ++ [encryptedAccount])

/-- Model of `removeAccount(id)`: filter out the matching identifier, write back
only when something was removed, report whether anything was removed. -/
def removeAccount (id : List Char) (fs : AccountsFile) : Bool × AccountsFile :=
  match fs with
  | .absent => (false, .absent)
  | .corrupt => (false, .corrupt)
  | .doc rawAccounts =>
    let filtered := rawAccounts.filter (fun a => decide (¬ a.id = id))
    if filtered.length = rawAccounts.length then (false, .doc rawAccounts)
    else (true, .doc filtered)

/-! ## The add_email_account tool (src/tools/add-account.ts): building the
record handed to addAccount -/

structure AddAccountArgs where
  email : List Char
  password : List Char
  name : Option (List Char) := none
  provider : Option EmailProvider := none
  imap_host : Option (List Char) := none
  imap_port : Option Nat := none
  smtp_host : Option (List Char) := none
  smtp_port : Option Nat := none

/-- JS `x || d` for an optional string (undefined and the empty string are
falsy). -/
def jsOrStr (v : Option (List Char)) (d : List Char) : List Char :=
  match v with
  | some s => if s.isEmpty then d else s
  | none => d

/-- JS `x || d` for an optional number (undefined and 0 are falsy). -/
def jsOrNat (v : Option Nat) (d : Nat) : Nat :=
  match v with
  | some n => if n = 0 then d else n
  | none => d

/-- Model of `email.replace(/[^a-zA-Z0-9]/g, "-").toLowerCase()`. -/
def normalizeId (email : List Char) : List Char :=
  (email.map (fun c => if c.isAlphanum then c else '-')).map Char.toLower

/-- Model of `email.split("@")[0]`. -/
def localPartOf (email : List Char) : List Char :=
  (splitOnChar '@' email).headD []

/-- The account object built by the tool execute step before it calls
addAccount. -/
def buildAccount (args : AddAccountArgs) : EmailAccount :=
  let provider :=
    match args.provider with
    | some p => p
    | none => detectProvider args.email
  { id := normalizeId args.email,
    email := args.email,
    name := some (jsOrStr args.name (localPartOf args.email)),
    provider := provider,
    enabled := true,
    imap := { host := jsOrStr args.imap_host [], port := jsOrNat args.imap_port 993, tls := true },
    smtp := { host := jsOrStr args.smtp_host [], port := jsOrNat args.smtp_port 587, secure := false },
    auth := { type := .password, user := args.email, password := some args.password } }

/-! ## Derived predicates used by the claims -/

/-- A populated sensitive field, stored on disk, must be tagged ciphertext.
An absent or empty field is unconstrained ("populated" means non-empty). -/
def sensFieldOk : Option (List Char) → Bool
  | none => true
  | some s => s.isEmpty || isEncrypted s

def diskOkAccount (a : EmailAccount) : Bool :=
  sensFieldOk a.auth.password && sensFieldOk a.auth.accessToken &&
  sensFieldOk a.auth.refreshToken && sensFieldOk a.auth.clientSecret

/-- On-disk invariant: every populated sensitive field of every stored
record is an EncryptedValue. -/
abbrev DiskInv (fs : AccountsFile) : Prop :=
  ∀ a ∈ rawOf fs, diskOkAccount a = true

/-- A populated field returned by a read is plaintext: by the format-tag
invariant of the spec, a value is encrypted iff tagged, so plaintext means
untagged. -/
def plainFieldOk : Option (List Char) → Bool
  | none => true
  | some s => !(isEncrypted s)

/-- Number of records carrying a given identifier. -/
def countId (l : List EmailAccount) (id : List Char) : Nat :=
  (l.filter (fun a => decide (a.id = id))).length

/-- Structural form of the replace-or-append step (proof helper; shown
equal to the findIndex/set composite of addAccount). -/
def upsertRaw (e : EmailAccount) : List EmailAccount → List EmailAccount
  | [] => [e]
  | a :: rest => if a.id = e.id then e :: rest else a :: upsertRaw e rest

/-- Selector for the four sensitive auth fields of SENSITIVE_AUTH_FIELDS,
used to quantify claims over which field is the failing one. -/
inductive SensField where
  | password | accessToken | refreshToken | clientSecret
deriving DecidableEq, Repr

def getSens : SensField → AuthConfig → Option (List Char)
  | .password, au => au.password
  | .accessToken, au => au.accessToken
  | .refreshToken, au => au.refreshToken
  | .clientSecret, au => au.clientSecret

/-- Field name as it appears in SENSITIVE_AUTH_FIELDS and in the log. -/
def sensName : SensField → List Char
  | .password => "password".data
  | .accessToken => "accessToken".data
  | .refreshToken => "refreshToken".data
  | .clientSecret => "clientSecret".data

/-- Decidable form of the colon-freeness that base64 encoding guarantees
for the cipher components feeding one encrypt call on one field. -/
def cipherClean (C : AEAD) (k : List Nat) (iv : List Char) :
    Option (List Char) → Bool
  | none => true
  | some p =>
    decide (':' ∉ iv) && decide (':' ∉ (C.enc k iv p).1) &&
      decide (':' ∉ (C.enc k iv p).2)

/-! ## Concrete fixtures for closed evaluations -/

def ivs0 : Ivs := ⟨"iva".data, "ivb".data, "ivc".data, "ivd".data⟩

/-- A stored record whose password field is valid ciphertext (under
`plainAEAD`) and whose access token field is corrupted tagged ciphertext
(wrong component count). -/
def acctMixed : EmailAccount :=
  { id := "bob-example-com".data
    email := "bob@example.com".data
    name := some "Bob".data
    provider := .custom
    enabled := true
    imap := ⟨"imap.example.com".data, 993, true⟩
    smtp := ⟨"smtp.example.com".data, 587, false⟩
    auth := { type := .password, user := "bob@example.com".data,
              password := some "enc:local:iv:t:pw".data,
              accessToken := some "enc:local:bad".data } }

/-- A stored record whose password field is corrupted tagged ciphertext
and whose client secret field is valid ciphertext (under `plainAEAD`). -/
def acctMixed2 : EmailAccount :=
  { id := "eve-example-com".data
    email := "eve@example.com".data
    provider := .custom
    enabled := true
    imap := ⟨"imap.example.com".data, 993, true⟩
    smtp := ⟨"smtp.example.com".data, 587, false⟩
    auth := { type := .password, user := "eve@example.com".data,
              password := some "enc:local:bad2".data,
              clientSecret := some "enc:local:iv:t:cs".data } }

def acctPlain1 : EmailAccount :=
  { id := "ann-example-com".data
    email := "ann@example.com".data
    provider := .custom
    enabled := true
    imap := ⟨"imap.example.com".data, 993, true⟩
    smtp := ⟨"smtp.example.com".data, 587, false⟩
    auth := { type := .password, user := "ann@example.com".data,
              password := some "secret one".data } }

def acctPlain2 : EmailAccount :=
  { acctPlain1 with
    auth := { type := .password, user := "ann@example.com".data,
              password := some "secret two".data } }

def argsGmail : AddAccountArgs :=
  { email := "bob@gmail.com".data, password := "pw".data }

/-! # Theorems -/

/-! ## Splitting lemmas -/

theorem splitOnChar_ne_nil (sep : Char) (l : List Char) : splitOnChar sep l ≠ [] := by
  cases l with
  | nil => simp [splitOnChar]
  | cons c rest =>
    simp only [splitOnChar]
    cases h : splitOnChar sep rest with
    | nil => simp
    | cons s ss =>
      by_cases hc : c = sep <;> simp [hc]

theorem splitOnChar_of_not_mem (sep : Char) (l : List Char) (h : sep ∉ l) :
    splitOnChar sep l = [l] := by
  induction l with
  | nil => rfl
  | cons c rest ih =>
    have hc : c ≠ sep := fun hcs => h (hcs ▸ List.mem_cons_self c rest)
    have hr : sep ∉ rest := fun hm => h (List.mem_cons_of_mem c hm)
    simp only [splitOnChar, ih hr]
    simp [hc]

theorem splitOnChar_append (sep : Char) (a b : List Char) (h : sep ∉ a) :
    splitOnChar sep (a ++ sep :: b) = a :: splitOnChar sep b := by
  induction a with
  | nil =>
    simp only [List.nil_append, splitOnChar]
    cases hb : splitOnChar sep b with
    | nil => exact absurd hb (splitOnChar_ne_nil sep b)
    | cons s ss => simp
  | cons c a' ih =>
    have hc : c ≠ sep := fun hcs => h (hcs ▸ List.mem_cons_self c a')
    have ha : sep ∉ a' := fun hm => h (List.mem_cons_of_mem c hm)
    rw [List.cons_append]
    simp only [splitOnChar]
    rw [ih ha]
    simp [hc]

/-! ## Cipher-layer lemmas -/

theorem encryptLocal_eq_assoc (C : AEAD) (k : List Nat) (iv s : List Char) :
    encryptLocal C k iv s =
      PREFIX_LOCAL ++ (iv ++ ':' :: ((C.enc k iv s).1 ++ ':' :: (C.enc k iv s).2)) := by
  simp [encryptLocal]

theorem isEncrypted_encryptLocal (C : AEAD) (k : List Nat) (iv s : List Char) :
    isEncrypted (encryptLocal C k iv s) = true := by
  rw [encryptLocal_eq_assoc, isEncrypted, List.isPrefixOf_iff_prefix]
  exact List.prefix_append _ _

theorem encryptLocal_ne_nil (C : AEAD) (k : List Nat) (iv s : List Char) :
    encryptLocal C k iv s ≠ [] := by
  rw [encryptLocal_eq_assoc]
  intro h
  rw [List.append_eq_nil] at h
  exact absurd h.1 (by decide)

theorem decryptLocal_encryptLocal (C : AEAD) (k : List Nat) (iv s : List Char)
    (hiv : ':' ∉ iv) (htag : ':' ∉ (C.enc k iv s).1) (hct : ':' ∉ (C.enc k iv s).2) :
    decryptLocal C k (encryptLocal C k iv s) = .ok s := by
  rw [decryptLocal, encryptLocal_eq_assoc, List.drop_left,
    splitOnChar_append ':' iv _ hiv, splitOnChar_append ':' _ _ htag,
    splitOnChar_of_not_mem ':' _ hct]
  simp [C.dec_enc]

theorem decrypt_encryptLocal (C : AEAD) (k : List Nat) (iv s : List Char)
    (hiv : ':' ∉ iv) (htag : ':' ∉ (C.enc k iv s).1) (hct : ':' ∉ (C.enc k iv s).2) :
    decrypt C k (encryptLocal C k iv s) = .ok s := by
  rw [decrypt, if_neg, if_pos]
  · exact decryptLocal_encryptLocal C k iv s hiv htag hct
  · have := isEncrypted_encryptLocal C k iv s
    rw [isEncrypted] at this
    exact this
  · rw [not_or]
    exact ⟨encryptLocal_ne_nil C k iv s, by simp [isEncrypted_encryptLocal C k iv s]⟩

theorem encrypt_of_plain (C : AEAD) (k : List Nat) (iv s : List Char)
    (hnil : s ≠ []) (hs : isEncrypted s = false) :
    encrypt C k iv s = encryptLocal C k iv s := by
  rw [encrypt, if_neg]
  rw [not_or]
  exact ⟨hnil, by simp [hs]⟩

/-! ## Claim C2 -/

/-- Claim C2, amended: the encrypt/decrypt round trip restores every
plaintext that is not itself recognized as encrypted, that is, every
string (the empty string included) that does not begin with the
`enc:local:` format tag; the colon-freeness hypotheses hold for the base64
components the real cipher produces.  A plaintext that does begin with the
tag is passed through encrypt unchanged and decrypt then tries to parse
it, so the round trip can fail on such strings (see the counterexample). -/
theorem C2_roundtrip (C : AEAD) (k : List Nat) (iv s : List Char)
    (hs : isEncrypted s = false)
    (hiv : ':' ∉ iv)
    (htag : ':' ∉ (C.enc k iv s).1)
    (hct : ':' ∉ (C.enc k iv s).2) :
    decrypt C k (encrypt C k iv s) = .ok s := by
  by_cases hnil : s = []
  · subst hnil
    simp [encrypt, decrypt]
  · rw [encrypt_of_plain C k iv s hnil hs]
    exact decrypt_encryptLocal C k iv s hiv htag hct

/-- Witness for C2: the round trip at the concrete plaintext `hunter2`
and at the empty string. -/
theorem C2_roundtrip_witness :
    decrypt plainAEAD [] (encrypt plainAEAD [] "ivA".data "hunter2".data)
      = .ok "hunter2".data ∧
    decrypt plainAEAD [] (encrypt plainAEAD [] "ivA".data []) = .ok [] :=
  ⟨C2_roundtrip plainAEAD [] "ivA".data "hunter2".data
      (by decide) (by decide) (by decide) (by decide),
   C2_roundtrip plainAEAD [] "ivA".data []
      (by decide) (by decide) (by decide) (by decide)⟩

/-- Claim C2 as stated is false: at the plaintext `enc:local:abc` (which
already carries the format tag), encrypt is a no-op and decrypt then fails
to parse the three colon-delimited components, so the round trip returns
an error rather than the plaintext. -/
theorem C2_counterexample :
    encrypt plainAEAD [] "iv0".data "enc:local:abc".data = "enc:local:abc".data ∧
    decrypt plainAEAD [] "enc:local:abc".data = .error .malformedFormat ∧
    (Except.error .malformedFormat : Except CryptoError (List Char))
      ≠ .ok "enc:local:abc".data :=
  ⟨rfl, rfl, fun h => Except.noConfusion h⟩

/-! ## Claim C4 -/

/-- Claim C4: encrypt is a no-op on empty or already-encrypted input;
re-encrypting an encrypted result returns it unchanged (idempotence, for
any pair of fresh ivs); and the output on any non-empty input satisfies
isEncrypted. -/
theorem C4_encrypt_idempotent (C : AEAD) (k : List Nat) (iv iv2 s : List Char) :
    (s = [] ∨ isEncrypted s = true → encrypt C k iv s = s) ∧
    encrypt C k iv2 (encrypt C k iv s) = encrypt C k iv s ∧
    (s ≠ [] → isEncrypted (encrypt C k iv s) = true) := by
  refine ⟨?_, ?_, ?_⟩
  · intro h
    rw [encrypt, if_pos]
    rcases h with h | h
    · exact Or.inl h
    · exact Or.inr (by simp [h])
  · by_cases h : s = [] ∨ isEncrypted s = true
    · have hnoop : encrypt C k iv s = s := by
        rw [encrypt, if_pos]
        rcases h with h | h
        · exact Or.inl h
        · exact Or.inr (by simp [h])
      rw [hnoop]
      rw [encrypt, if_pos]
      rcases h with h | h
      · exact Or.inl h
      · exact Or.inr (by simp [h])
    · rw [not_or] at h
      have hs : isEncrypted s = false := by
        cases he : isEncrypted s
        · rfl
        · exact absurd (by simp [he]) h.2
      rw [encrypt_of_plain C k iv s h.1 hs]
      rw [encrypt, if_pos]
      exact Or.inr (by simp [isEncrypted_encryptLocal C k iv s])
  · intro hnil
    cases he : isEncrypted s
    · rw [encrypt_of_plain C k iv s hnil he]
      exact isEncrypted_encryptLocal C k iv s
    · rw [encrypt, if_pos (Or.inr (by simp [he]))]
      exact he

/-- Witness for C4 at concrete inputs: a tagged value is returned
unchanged, the double encryption of `pw` equals its single encryption, and
the single encryption of the non-empty `pw` is recognized as encrypted. -/
theorem C4_encrypt_idempotent_witness :
    encrypt plainAEAD [] "ivA".data "enc:local:x".data = "enc:local:x".data ∧
    encrypt plainAEAD [] "ivB".data (encrypt plainAEAD [] "ivA".data "pw".data)
      = encrypt plainAEAD [] "ivA".data "pw".data ∧
    isEncrypted (encrypt plainAEAD [] "ivA".data "pw".data) = true :=
  ⟨(C4_encrypt_idempotent plainAEAD [] "ivA".data "ivB".data "enc:local:x".data).1
      (Or.inr (by decide)),
   (C4_encrypt_idempotent plainAEAD [] "ivA".data "ivB".data "pw".data).2.1,
   (C4_encrypt_idempotent plainAEAD [] "ivA".data "ivB".data "pw".data).2.2
      (by decide)⟩

/-! ## Claims C5 and C6 -/

/-- Claim C5: key resolution order.  A supplied (non-empty) environment
secret is used as KDF input; otherwise a readable key file supplies the
secret (its text, whitespace-trimmed); otherwise the freshly generated
random secret is used and is persisted to the key file with owner-only
mode 0o600.  In every case the returned key is
`kdf secret SCRYPT_SALT KEY_LENGTH` (scrypt with the fixed hardcoded salt,
32 bytes), never the raw secret itself. -/
theorem C5_key_resolution (kdf : List Char → List Char → Nat → List Nat)
    (env : KeyEnv) :
    (∀ s, env.envKey = some s → s ≠ [] →
      getLocalMasterKey kdf env = .ok ⟨kdf s SCRYPT_SALT KEY_LENGTH, none⟩) ∧
    (truthyStr env.envKey = false → ∀ d, env.keyFile = some (.ok d) →
      getLocalMasterKey kdf env = .ok ⟨kdf (trimChars d) SCRYPT_SALT KEY_LENGTH, none⟩) ∧
    (truthyStr env.envKey = false → env.keyFile = none →
      getLocalMasterKey kdf env =
        .ok ⟨kdf env.freshSecret SCRYPT_SALT KEY_LENGTH, some (env.freshSecret, 0o600)⟩) := by
  refine ⟨?_, ?_, ?_⟩
  · intro s hsome hnil
    have ht : truthyStr env.envKey = true := by
      rw [hsome, truthyStr]
      cases s
      · exact absurd rfl hnil
      · rfl
    rw [getLocalMasterKey, if_pos (by simp [ht]), hsome]
    rfl
  · intro hf d hfile
    rw [getLocalMasterKey, if_neg (by simp [hf]), hfile]
  · intro hf hfile
    rw [getLocalMasterKey, if_neg (by simp [hf]), hfile]

/-- Witness for C5: each of the three resolution branches evaluated at a
concrete environment, with a concrete KDF standing in for scrypt. -/
theorem C5_key_resolution_witness :
    getLocalMasterKey (fun s _ _ => s.map Char.toNat)
        ⟨some "envsec".data, some (.ok "filesec".data), "fresh".data⟩
      = .ok ⟨"envsec".data.map Char.toNat, none⟩ ∧
    getLocalMasterKey (fun s _ _ => s.map Char.toNat)
        ⟨none, some (.ok " filesec ".data), "fresh".data⟩
      = .ok ⟨"filesec".data.map Char.toNat, none⟩ ∧
    getLocalMasterKey (fun s _ _ => s.map Char.toNat)
        ⟨none, none, "fresh".data⟩
      = .ok ⟨"fresh".data.map Char.toNat, some ("fresh".data, 0o600)⟩ := by
  refine ⟨?_, ?_, ?_⟩
  · have h := (C5_key_resolution (fun s _ _ => s.map Char.toNat)
      ⟨some "envsec".data, some (.ok "filesec".data), "fresh".data⟩).1
      "envsec".data rfl (by decide)
    exact h
  · have h := (C5_key_resolution (fun s _ _ => s.map Char.toNat)
      ⟨none, some (.ok " filesec ".data), "fresh".data⟩).2.1
      (by decide) " filesec ".data rfl
    rw [h]
    rfl
  · have h := (C5_key_resolution (fun s _ _ => s.map Char.toNat)
      ⟨none, none, "fresh".data⟩).2.2 (by decide) rfl
    exact h

/-- Claim C6: when key resolution consults the key file (no environment
override) and the file exists but is unreadable, resolution surfaces the
fatal error instead of regenerating; and whenever the key file is present
(readable or not), no resolution outcome ever writes a new key file, so
the generation branch is unreachable. -/
theorem C6_unreadable_keyfile_fatal (kdf : List Char → List Char → Nat → List Nat)
    (env : KeyEnv) :
    (truthyStr env.envKey = false → ∀ e, env.keyFile = some (.error e) →
      getLocalMasterKey kdf env = .error .keyFileUnreadable) ∧
    (∀ f, env.keyFile = some f → ∀ r, getLocalMasterKey kdf env = .ok r →
      r.fileWrite = none) := by
  constructor
  · intro hf e hfile
    rw [getLocalMasterKey, if_neg (by simp [hf]), hfile]
  · intro f hfile r hok
    rw [getLocalMasterKey] at hok
    by_cases ht : truthyStr env.envKey = true
    · rw [if_pos (by simp [ht])] at hok
      cases hok
      rfl
    · rw [if_neg (by simp [ht])] at hok
      rw [hfile] at hok
      cases f with
      | ok d =>
        cases hok
        rfl
      | error e => exact absurd hok (by simp)

/-- Witness for C6: a present-but-unreadable key file aborts resolution
with KeyFileUnreadable, and a present readable key file never triggers a
key-file write. -/
theorem C6_unreadable_keyfile_fatal_witness :
    getLocalMasterKey (fun s _ _ => s.map Char.toNat)
        ⟨none, some (.error ()), "fresh".data⟩
      = .error .keyFileUnreadable ∧
    (getLocalMasterKey (fun s _ _ => s.map Char.toNat)
        ⟨none, some (.ok "filesec".data), "fresh".data⟩)
      = .ok ⟨"filesec".data.map Char.toNat, none⟩ := by
  constructor
  · exact (C6_unreadable_keyfile_fatal (fun s _ _ => s.map Char.toNat)
      ⟨none, some (.error ()), "fresh".data⟩).1 (by decide) () rfl
  · have h := (C6_unreadable_keyfile_fatal (fun s _ _ => s.map Char.toNat)
      ⟨none, some (.ok "filesec".data), "fresh".data⟩).2
      (.ok "filesec".data) rfl ⟨"filesec".data.map Char.toNat, none⟩ rfl
    rfl

/-! ## List helper lemmas for the store -/

theorem length_filter_eq_iff_all {α : Type} (p : α → Bool) (l : List α) :
    (l.filter p).length = l.length ↔ ∀ a ∈ l, p a = true := by
  induction l with
  | nil => simp
  | cons a l ih =>
    cases h : p a with
    | true => simp [List.filter_cons, h, ih]
    | false =>
      rw [List.filter_cons, if_neg (by simp [h]), List.length_cons]
      constructor
      · intro hl
        have hle := List.length_filter_le p l
        omega
      · intro hall
        exact absurd (hall a (List.mem_cons_self a l)) (by simp [h])

theorem decryptAccount_id (C : AEAD) (k : List Nat) (a : EmailAccount) :
    (decryptAccount C k a).1.id = a.id := rfl

/-! ## Claim C9 -/

/-- Claim C9: removeAccount returns true exactly when the parsed document
holds a record with the given identifier; on true the written document is
the prior one with the matching records filtered out, and afterwards
getAccount is absent and getAccounts excludes the identifier; on false the
document is unchanged (and the source writes nothing back). -/
theorem C9_removeAccount (C : AEAD) (k : List Nat) (id : List Char)
    (fs : AccountsFile) :
    ((removeAccount id fs).1 = true ↔
      ∃ l, fs = .doc l ∧ ∃ a ∈ l, a.id = id) ∧
    ((removeAccount id fs).1 = true →
      (removeAccount id fs).2 = .doc ((rawOf fs).filter (fun a => decide (¬ a.id = id))) ∧
      getAccount C k id (removeAccount id fs).2 = none ∧
      ∀ r ∈ getAccounts C k (removeAccount id fs).2, r.id ≠ id) ∧
    ((removeAccount id fs).1 = false → (removeAccount id fs).2 = fs) := by
  have hfilter : ∀ l : List EmailAccount,
      ((l.filter (fun a => decide (¬ a.id = id))).length = l.length ↔
        ∀ a ∈ l, a.id ≠ id) := by
    intro l
    rw [length_filter_eq_iff_all]
    constructor
    · intro h a ha
      have := h a ha
      simpa using this
    · intro h a ha
      simpa using h a ha
  have hexcl : ∀ l : List EmailAccount,
      ∀ r ∈ getAccounts C k (.doc (l.filter (fun a => decide (¬ a.id = id)))), r.id ≠ id := by
    intro l r hr
    rw [getAccounts, List.mem_map] at hr
    obtain ⟨a, ha, rfl⟩ := hr
    rw [List.mem_filter] at ha
    rw [decryptAccount_id]
    simpa using ha.2
  have hre : ∀ l : List EmailAccount, removeAccount id (.doc l) =
      if (l.filter (fun a => decide (¬ a.id = id))).length = l.length
      then (false, .doc l)
      else (true, .doc (l.filter (fun a => decide (¬ a.id = id)))) := fun _ => rfl
  refine ⟨?_, ?_, ?_⟩
  · cases fs with
    | absent =>
      constructor
      · intro h
        exact absurd h (by simp [removeAccount])
      · rintro ⟨l, hl, -⟩
        exact AccountsFile.noConfusion hl
    | corrupt =>
      constructor
      · intro h
        exact absurd h (by simp [removeAccount])
      · rintro ⟨l, hl, -⟩
        exact AccountsFile.noConfusion hl
    | doc l =>
      rw [hre l]
      by_cases hlen : (l.filter (fun a => decide (¬ a.id = id))).length = l.length
      · rw [if_pos hlen]
        constructor
        · intro h
          exact absurd h (by simp)
        · rintro ⟨l', hl', a, ha, haid⟩
          cases hl'
          exact absurd haid ((hfilter l).mp hlen a ha)
      · rw [if_neg hlen]
        constructor
        · intro _
          refine ⟨l, rfl, ?_⟩
          by_contra hnone
          push_neg at hnone
          exact hlen ((hfilter l).mpr hnone)
        · intro _
          rfl
  · intro htrue
    cases fs with
    | absent => exact absurd htrue (by simp [removeAccount])
    | corrupt => exact absurd htrue (by simp [removeAccount])
    | doc l =>
      by_cases hlen : (l.filter (fun a => decide (¬ a.id = id))).length = l.length
      · rw [hre l, if_pos hlen] at htrue
        exact absurd htrue (by simp)
      · have hsnd : (removeAccount id (.doc l)).2 =
            .doc (l.filter (fun a => decide (¬ a.id = id))) := by
          rw [hre l, if_neg hlen]
        refine ⟨hsnd, ?_, ?_⟩
        · rw [hsnd, getAccount, List.find?_eq_none]
          intro r hr
          have := hexcl l r hr
          simpa using this
        · rw [hsnd]
          exact hexcl l
  · intro hfalse
    cases fs with
    | absent => rfl
    | corrupt => rfl
    | doc l =>
      by_cases hlen : (l.filter (fun a => decide (¬ a.id = id))).length = l.length
      · rw [hre l, if_pos hlen]
      · rw [hre l, if_neg hlen] at hfalse
        exact absurd hfalse (by simp)

/-- Witness for C9: removing `ann-example-com` from a one-record document
returns true and empties it, after which getAccount is absent; removing a
missing identifier returns false and leaves the document untouched. -/
theorem C9_removeAccount_witness :
    (removeAccount "ann-example-com".data (.doc [acctPlain1])).1 = true ∧
    (removeAccount "ann-example-com".data (.doc [acctPlain1])).2 = .doc [] ∧
    getAccount plainAEAD [] "ann-example-com".data
      (removeAccount "ann-example-com".data (.doc [acctPlain1])).2 = none ∧
    (removeAccount "zoe".data (.doc [acctPlain1])).1 = false ∧
    (removeAccount "zoe".data (.doc [acctPlain1])).2 = .doc [acctPlain1] := by
  have h1 := C9_removeAccount plainAEAD [] "ann-example-com".data (.doc [acctPlain1])
  have h2 := C9_removeAccount plainAEAD [] "zoe".data (.doc [acctPlain1])
  have htrue : (removeAccount "ann-example-com".data (.doc [acctPlain1])).1 = true :=
    h1.1.mpr ⟨[acctPlain1], rfl, acctPlain1, List.mem_cons_self _ _, by decide⟩
  have hfalse : (removeAccount "zoe".data (.doc [acctPlain1])).1 = false := by
    cases hb : (removeAccount "zoe".data (.doc [acctPlain1])).1
    · rfl
    · obtain ⟨l, hl, a, ha, haid⟩ := h2.1.mp hb
      cases hl
      rw [List.mem_singleton] at ha
      subst ha
      exact absurd haid (by decide)
  refine ⟨htrue, ?_, (h1.2.1 htrue).2.1, hfalse, h2.2.2 hfalse⟩
  rw [(h1.2.1 htrue).1]
  rfl

/-! ## Claim C10 -/

/-- Claim C10: an absent or unparseable accounts document is treated as the
empty collection: reads return nothing, removeAccount reports false and
leaves the state unchanged, and addAccount proceeds from the empty list so
the next write holds exactly the one incoming record (encrypted). -/
theorem C10_missing_or_corrupt (C : AEAD) (k : List Nat) (id : List Char)
    (ivs : Ivs) (account : EmailAccount) (fs : AccountsFile)
    (h : fs = .absent ∨ fs = .corrupt) :
    getAccounts C k fs = [] ∧
    getAccount C k id fs = none ∧
    removeAccount id fs = (false, fs) ∧
    addAccount C k ivs account fs =
      .doc [encryptAccount C k ivs (applyPreset account)] := by
  rcases h with h | h <;> subst h <;>
    exact ⟨rfl, rfl, rfl, by simp [addAccount, rawOf, findIndexById]⟩

/-- Witness for C10: the four operations evaluated against an absent
document. -/
theorem C10_missing_or_corrupt_witness :
    getAccounts plainAEAD [] .absent = [] ∧
    getAccount plainAEAD [] "ann-example-com".data .absent = none ∧
    removeAccount "ann-example-com".data .absent = (false, .absent) ∧
    addAccount plainAEAD [] ivs0 acctPlain1 .absent =
      .doc [encryptAccount plainAEAD [] ivs0 (applyPreset acctPlain1)] :=
  C10_missing_or_corrupt plainAEAD [] "ann-example-com".data ivs0 acctPlain1
    .absent (Or.inl rfl)

/-! ## Upsert lemmas -/

theorem applyPreset_id (account : EmailAccount) :
    (applyPreset account).id = account.id := rfl

theorem applyPreset_auth (account : EmailAccount) :
    (applyPreset account).auth = account.auth := rfl

theorem encryptAccount_id (C : AEAD) (k : List Nat) (ivs : Ivs) (a : EmailAccount) :
    (encryptAccount C k ivs a).id = a.id := rfl

theorem countId_nil (id : List Char) : countId [] id = 0 := rfl

theorem countId_cons (a : EmailAccount) (l : List EmailAccount) (id : List Char) :
    countId (a :: l) id = (if a.id = id then 1 else 0) + countId l id := by
  by_cases h : a.id = id
  · rw [countId, List.filter_cons, if_pos (by simp [h]), if_pos h, List.length_cons]
    rw [countId]
    omega
  · rw [countId, List.filter_cons, if_neg (by simp [h]), if_neg h]
    rw [countId]
    omega

/-- The findIndex/set composite of addAccount equals the structural
replace-or-append recursion. -/
theorem upsert_eq_upsertRaw (e : EmailAccount) (l : List EmailAccount) :
    (match findIndexById e.id l with
     | some i => l.set i e
     | none => l ++ [e]) = upsertRaw e l := by
  induction l with
  | nil => rfl
  | cons a rest ih =>
    by_cases h : a.id = e.id
    · rw [upsertRaw, if_pos h]
      rw [findIndexById, if_pos h]
      rfl
    · rw [upsertRaw, if_neg h]
      rw [findIndexById, if_neg h]
      cases hf : findIndexById e.id rest with
      | none =>
        rw [hf] at ih
        show a :: (rest ++ [e]) = a :: upsertRaw e rest
        rw [← ih]
      | some j =>
        rw [hf] at ih
        show a :: rest.set j e = a :: upsertRaw e rest
        rw [← ih]

theorem addAccount_eq (C : AEAD) (k : List Nat) (ivs : Ivs) (account : EmailAccount)
    (fs : AccountsFile) :
    addAccount C k ivs account fs =
      .doc (upsertRaw (encryptAccount C k ivs (applyPreset account)) (rawOf fs)) := by
  rw [addAccount]
  have hid : (applyPreset account).id =
      (encryptAccount C k ivs (applyPreset account)).id := rfl
  rw [hid, ← upsert_eq_upsertRaw (encryptAccount C k ivs (applyPreset account)) (rawOf fs)]
  cases hfi : findIndexById (encryptAccount C k ivs (applyPreset account)).id (rawOf fs) with
  | none => rfl
  | some i => rfl

theorem countId_upsertRaw_self (e : EmailAccount) (l : List EmailAccount)
    (h : countId l e.id ≤ 1) :
    countId (upsertRaw e l) e.id = 1 := by
  induction l with
  | nil =>
    rw [upsertRaw, countId_cons, if_pos rfl, countId_nil]
  | cons a rest ih =>
    by_cases ha : a.id = e.id
    · rw [upsertRaw, if_pos ha, countId_cons, if_pos rfl]
      rw [countId_cons, if_pos ha] at h
      omega
    · rw [upsertRaw, if_neg ha, countId_cons, if_neg ha]
      rw [countId_cons, if_neg ha] at h
      rw [ih (by omega)]

theorem countId_upsertRaw_other (e : EmailAccount) (l : List EmailAccount)
    (j : List Char) (h : j ≠ e.id) :
    countId (upsertRaw e l) j = countId l j := by
  induction l with
  | nil =>
    rw [upsertRaw, countId_cons, if_neg (fun he => h he.symm)]
    omega
  | cons a rest ih =>
    by_cases ha : a.id = e.id
    · rw [upsertRaw, if_pos ha, countId_cons, if_neg (fun he => h he.symm),
        countId_cons, if_neg (ha ▸ fun he => h he.symm)]
    · rw [upsertRaw, if_neg ha, countId_cons, countId_cons, ih]

theorem find?_upsertRaw_self (e : EmailAccount) (l : List EmailAccount) :
    (upsertRaw e l).find? (fun a => decide (a.id = e.id)) = some e := by
  induction l with
  | nil =>
    rw [upsertRaw, List.find?_cons_of_pos _ (by simp)]
  | cons a rest ih =>
    by_cases ha : a.id = e.id
    · rw [upsertRaw, if_pos ha, List.find?_cons_of_pos _ (by simp)]
    · rw [upsertRaw, if_neg ha, List.find?_cons_of_neg _ (by simp [ha]), ih]

theorem mem_upsertRaw (e b : EmailAccount) (l : List EmailAccount)
    (h : b ∈ upsertRaw e l) : b = e ∨ b ∈ l := by
  induction l with
  | nil =>
    rw [upsertRaw, List.mem_singleton] at h
    exact Or.inl h
  | cons a rest ih =>
    by_cases ha : a.id = e.id
    · rw [upsertRaw, if_pos ha, List.mem_cons] at h
      rcases h with h | h
      · exact Or.inl h
      · exact Or.inr (List.mem_cons_of_mem a h)
    · rw [upsertRaw, if_neg ha, List.mem_cons] at h
      rcases h with h | h
      · exact Or.inr (h ▸ List.mem_cons_self a rest)
      · rcases ih h with h | h
        · exact Or.inl h
        · exact Or.inr (List.mem_cons_of_mem a h)

theorem isEmpty_eq_false_of_ne_nil {l : List Char} (h : l ≠ []) :
    l.isEmpty = false := by
  cases l with
  | nil => exact absurd rfl h
  | cons c cs => rfl

theorem encField_of_plain (C : AEAD) (k : List Nat) (iv p : List Char)
    (hnil : p ≠ []) (hp : isEncrypted p = false) :
    encField C k iv (some p) = some (encryptLocal C k iv p) := by
  simp only [encField]
  rw [if_pos (by simp [isEmpty_eq_false_of_ne_nil hnil, hp])]
  rw [encrypt_of_plain C k iv p hnil hp]

/-! ## Claim C7 -/

/-- Claim C7: addAccount replaces the (first) record with matching
identifier or appends when none matches; upserting twice with the same
identifier into a document holding at most one record with that
identifier leaves exactly one record with it, that record is the
encrypted second incoming record — in particular its stored password is
the ciphertext of the second password when that password is non-empty
plaintext — and the count of records under every other identifier is
unchanged. -/
theorem C7_upsert_twice (C : AEAD) (k : List Nat) (ivs1 ivs2 : Ivs)
    (r1 r2 : EmailAccount) (fs : AccountsFile)
    (hid : r1.id = r2.id) (hcount : countId (rawOf fs) r2.id ≤ 1) :
    countId (rawOf (addAccount C k ivs2 r2 (addAccount C k ivs1 r1 fs))) r2.id = 1 ∧
    (rawOf (addAccount C k ivs2 r2 (addAccount C k ivs1 r1 fs))).find?
        (fun a => decide (a.id = r2.id))
      = some (encryptAccount C k ivs2 (applyPreset r2)) ∧
    (∀ j, j ≠ r2.id →
      countId (rawOf (addAccount C k ivs2 r2 (addAccount C k ivs1 r1 fs))) j
        = countId (rawOf fs) j) ∧
    (∀ p, r2.auth.password = some p → p ≠ [] → isEncrypted p = false →
      (encryptAccount C k ivs2 (applyPreset r2)).auth.password
        = some (encryptLocal C k ivs2.iv1 p)) := by
  have he1 : (encryptAccount C k ivs1 (applyPreset r1)).id = r2.id := hid
  have he2 : (encryptAccount C k ivs2 (applyPreset r2)).id = r2.id := rfl
  have hdoc : rawOf (addAccount C k ivs2 r2 (addAccount C k ivs1 r1 fs)) =
      upsertRaw (encryptAccount C k ivs2 (applyPreset r2))
        (upsertRaw (encryptAccount C k ivs1 (applyPreset r1)) (rawOf fs)) := by
    rw [addAccount_eq C k ivs1 r1 fs, addAccount_eq C k ivs2 r2]
    rfl
  have hc1 : countId (upsertRaw (encryptAccount C k ivs1 (applyPreset r1)) (rawOf fs))
      r2.id = 1 := by
    rw [← he1] at hcount ⊢
    exact countId_upsertRaw_self _ _ hcount
  refine ⟨?_, ?_, ?_, ?_⟩
  · rw [hdoc, ← he2]
    exact countId_upsertRaw_self _ _ (by rw [he2]; omega)
  · rw [hdoc]
    exact find?_upsertRaw_self (encryptAccount C k ivs2 (applyPreset r2))
      (upsertRaw (encryptAccount C k ivs1 (applyPreset r1)) (rawOf fs))
  · intro j hj
    rw [hdoc]
    rw [countId_upsertRaw_other _ _ j (by rw [he2]; exact hj),
      countId_upsertRaw_other _ _ j (by rw [he1]; exact hj)]
  · intro p hp hnil hplain
    show encField C k ivs2.iv1 (applyPreset r2).auth.password
      = some (encryptLocal C k ivs2.iv1 p)
    rw [applyPreset_auth, hp]
    exact encField_of_plain C k ivs2.iv1 p hnil hplain

/-- Witness for C7: upserting the same `ann-example-com` identifier twice
(passwords `secret one` then `secret two`) into a one-record document with
a different identifier. -/
theorem C7_upsert_twice_witness :
    countId (rawOf (addAccount plainAEAD [] ivs0 acctPlain2
        (addAccount plainAEAD [] ivs0 acctPlain1 (.doc [acctMixed]))))
      "ann-example-com".data = 1 ∧
    (rawOf (addAccount plainAEAD [] ivs0 acctPlain2
        (addAccount plainAEAD [] ivs0 acctPlain1 (.doc [acctMixed])))).find?
        (fun a => decide (a.id = "ann-example-com".data))
      = some (encryptAccount plainAEAD [] ivs0 (applyPreset acctPlain2)) ∧
    countId (rawOf (addAccount plainAEAD [] ivs0 acctPlain2
        (addAccount plainAEAD [] ivs0 acctPlain1 (.doc [acctMixed]))))
      "bob-example-com".data = countId (rawOf (.doc [acctMixed])) "bob-example-com".data ∧
    (encryptAccount plainAEAD [] ivs0 (applyPreset acctPlain2)).auth.password
      = some (encryptLocal plainAEAD [] ivs0.iv1 "secret two".data) := by
  have h := C7_upsert_twice plainAEAD [] ivs0 ivs0 acctPlain1 acctPlain2
    (.doc [acctMixed]) (by decide) (by decide)
  exact ⟨h.1, h.2.1, h.2.2.1 "bob-example-com".data (by decide),
    h.2.2.2 "secret two".data rfl (by decide) (by decide)⟩

/-! ## Field-level read lemmas -/

theorem ne_nil_of_isEmpty_eq_false {l : List Char} (h : l.isEmpty = false) :
    l ≠ [] := by
  cases l with
  | nil => exact absurd h (by simp)
  | cons c cs => intro hc; exact List.noConfusion hc

theorem decField_of_fail (C : AEAD) (k : List Nat) (s : List Char)
    (hnil : s ≠ []) (henc : isEncrypted s = true)
    (hfail : isOkE (decrypt C k s) = false) :
    decField C k (some s) = (some s, true) := by
  simp only [decField]
  rw [if_pos (by simp [isEmpty_eq_false_of_ne_nil hnil, henc])]
  cases hd : decrypt C k s with
  | ok p =>
    rw [hd] at hfail
    exact absurd hfail (by simp [isOkE])
  | error e => rfl

theorem decField_of_ok (C : AEAD) (k : List Nat) (s q : List Char)
    (hnil : s ≠ []) (henc : isEncrypted s = true)
    (hok : decrypt C k s = .ok q) :
    decField C k (some s) = (some q, false) := by
  simp only [decField]
  rw [if_pos (by simp [isEmpty_eq_false_of_ne_nil hnil, henc])]
  rw [hok]

theorem decryptAccount_fst (C : AEAD) (k : List Nat) (a : EmailAccount) :
    (decryptAccount C k a).1 = { a with auth := { a.auth with
      password := (decField C k a.auth.password).1,
      accessToken := (decField C k a.auth.accessToken).1,
      refreshToken := (decField C k a.auth.refreshToken).1,
      clientSecret := (decField C k a.auth.clientSecret).1 } } := rfl

theorem decryptAccount_snd (C : AEAD) (k : List Nat) (a : EmailAccount) :
    (decryptAccount C k a).2 =
      (if (decField C k a.auth.password).2 then ["password".data] else []) ++
      (if (decField C k a.auth.accessToken).2 then ["accessToken".data] else []) ++
      (if (decField C k a.auth.refreshToken).2 then ["refreshToken".data] else []) ++
      (if (decField C k a.auth.clientSecret).2 then ["clientSecret".data] else []) := rfl

/-! ## Claim C1 -/

/-- Claim C1, amended: for any one of the four sensitive fields, when
that stored field of a record fails to decrypt while the record sits in
the document, listAccounts still returns every record (the whole list is
never aborted, the record is never discarded), the failure is logged
under the field name, the non-sensitive fields are intact verbatim, and
every sensitive field goes through its own independent per-field
decryption — in particular any other sensitive field that decrypts
correctly comes back as its plaintext.  The failing field, however, is
NOT left empty: it keeps its stored ciphertext value unchanged (see the
counterexample against the claim as stated). -/
theorem C1_per_field_failure (C : AEAD) (k : List Nat) (l : List EmailAccount)
    (a : EmailAccount) (f : SensField) (s : List Char)
    (hmem : a ∈ l)
    (hf : getSens f a.auth = some s)
    (hnil : s ≠ [])
    (henc : isEncrypted s = true)
    (hfail : isOkE (decrypt C k s) = false) :
    (getAccounts C k (.doc l)).length = l.length ∧
    (decryptAccount C k a).1 ∈ getAccounts C k (.doc l) ∧
    getSens f (decryptAccount C k a).1.auth = some s ∧
    sensName f ∈ (decryptAccount C k a).2 ∧
    (decryptAccount C k a).1.id = a.id ∧
    (decryptAccount C k a).1.email = a.email ∧
    (decryptAccount C k a).1.name = a.name ∧
    (decryptAccount C k a).1.provider = a.provider ∧
    (decryptAccount C k a).1.enabled = a.enabled ∧
    (decryptAccount C k a).1.imap = a.imap ∧
    (decryptAccount C k a).1.smtp = a.smtp ∧
    (decryptAccount C k a).1.auth.type = a.auth.type ∧
    (decryptAccount C k a).1.auth.user = a.auth.user ∧
    (decryptAccount C k a).1.auth.clientId = a.auth.clientId ∧
    (decryptAccount C k a).1.auth.tokenExpiry = a.auth.tokenExpiry ∧
    (∀ g : SensField,
      getSens g (decryptAccount C k a).1.auth = (decField C k (getSens g a.auth)).1) ∧
    (∀ g : SensField, ∀ p q, getSens g a.auth = some p → p ≠ [] →
      isEncrypted p = true → decrypt C k p = .ok q →
      getSens g (decryptAccount C k a).1.auth = some q) := by
  have hffield : decField C k (getSens f a.auth) = (some s, true) := by
    rw [hf]
    exact decField_of_fail C k s hnil henc hfail
  have hgen : ∀ g : SensField,
      getSens g (decryptAccount C k a).1.auth = (decField C k (getSens g a.auth)).1 := by
    intro g
    cases g <;> rfl
  refine ⟨?_, ?_, ?_, ?_, rfl, rfl, rfl, rfl, rfl, rfl, rfl, rfl, rfl, rfl, rfl,
    hgen, ?_⟩
  · rw [getAccounts]
    exact List.length_map l _
  · rw [getAccounts]
    exact List.mem_map_of_mem _ hmem
  · rw [hgen f, hffield]
  · cases f with
    | password =>
      simp only [getSens] at hffield
      rw [decryptAccount_snd, hffield]
      simp [sensName]
    | accessToken =>
      simp only [getSens] at hffield
      rw [decryptAccount_snd, hffield]
      simp [sensName]
    | refreshToken =>
      simp only [getSens] at hffield
      rw [decryptAccount_snd, hffield]
      simp [sensName]
    | clientSecret =>
      simp only [getSens] at hffield
      rw [decryptAccount_snd, hffield]
      simp [sensName]
  · intro g p q hp hpnil hpenc hok
    have hgd : decField C k (getSens g a.auth) = (some q, false) := by
      rw [hp]
      exact decField_of_ok C k p q hpnil hpenc hok
    rw [hgen g, hgd]

/-- Witness for C1, at two concrete stored records exercising different
failing fields: one whose access token is corrupted tagged ciphertext
while its password decrypts to `pw`, and one whose password is corrupted
tagged ciphertext while its client secret decrypts to `cs`.  The reads
keep both records, log the right field names, keep the failing values
unchanged, and decrypt the healthy sensitive fields. -/
theorem C1_per_field_failure_witness :
    (getAccounts plainAEAD [] (.doc [acctMixed])).length = 1 ∧
    (decryptAccount plainAEAD [] acctMixed).1 ∈ getAccounts plainAEAD [] (.doc [acctMixed]) ∧
    (decryptAccount plainAEAD [] acctMixed).1.auth.accessToken
      = some "enc:local:bad".data ∧
    "accessToken".data ∈ (decryptAccount plainAEAD [] acctMixed).2 ∧
    (decryptAccount plainAEAD [] acctMixed).1.email = acctMixed.email ∧
    (decryptAccount plainAEAD [] acctMixed).1.auth.password = some "pw".data ∧
    (decryptAccount plainAEAD [] acctMixed2).1.auth.password
      = some "enc:local:bad2".data ∧
    "password".data ∈ (decryptAccount plainAEAD [] acctMixed2).2 ∧
    (decryptAccount plainAEAD [] acctMixed2).1.auth.clientSecret = some "cs".data := by
  have h1 := C1_per_field_failure plainAEAD [] [acctMixed] acctMixed .accessToken
    "enc:local:bad".data (List.mem_singleton.mpr rfl) rfl (by decide) (by decide)
    (by decide)
  have h2 := C1_per_field_failure plainAEAD [] [acctMixed2] acctMixed2 .password
    "enc:local:bad2".data (List.mem_singleton.mpr rfl) rfl (by decide) (by decide)
    (by decide)
  obtain ⟨hlen, hmem, hat, hlog, -, hemail, -, -, -, -, -, -, -, -, -, -, hok1⟩ := h1
  obtain ⟨-, -, hpw2, hlog2, -, -, -, -, -, -, -, -, -, -, -, -, hok2⟩ := h2
  exact ⟨hlen, hmem, hat, hlog, hemail,
    hok1 .password "enc:local:iv:t:pw".data "pw".data rfl (by decide) (by decide) rfl,
    hpw2, hlog2,
    hok2 .clientSecret "enc:local:iv:t:cs".data "cs".data rfl (by decide) (by decide) rfl⟩

/-- Claim C1 as stated is false: the failing access token field is not
left empty — it keeps its stored ciphertext (a non-empty, still-present
value), while the other fields (here the password, decrypted to `pw`) are
intact. -/
theorem C1_counterexample :
    (getAccounts plainAEAD [] (.doc [acctMixed])).map
        (fun r => (r.auth.password, r.auth.accessToken))
      = [(some "pw".data, some "enc:local:bad".data)] ∧
    some "enc:local:bad".data ≠ some ([] : List Char) ∧
    (some "enc:local:bad".data : Option (List Char)) ≠ none :=
  ⟨rfl, by decide, by decide⟩

/-! ## Claim C3 -/

theorem sensFieldOk_encField (C : AEAD) (k : List Nat) (iv : List Char)
    (v : Option (List Char)) : sensFieldOk (encField C k iv v) = true := by
  cases v with
  | none => rfl
  | some p =>
    simp only [encField]
    by_cases h : (!p.isEmpty && !isEncrypted p) = true
    · rw [if_pos h]
      simp only [Bool.and_eq_true, Bool.not_eq_true'] at h
      have hnil : p ≠ [] := ne_nil_of_isEmpty_eq_false h.1
      rw [encrypt_of_plain C k iv p hnil h.2]
      show ((encryptLocal C k iv p).isEmpty || isEncrypted (encryptLocal C k iv p)) = true
      rw [isEncrypted_encryptLocal]
      simp
    · rw [if_neg h]
      simp only [Bool.and_eq_true, Bool.not_eq_true', not_and_or] at h
      show (p.isEmpty || isEncrypted p) = true
      rcases h with h | h
      · simp only [Bool.not_eq_false] at h
        rw [h]
        simp
      · simp only [Bool.not_eq_false] at h
        rw [h]
        simp

theorem diskOk_encryptAccount (C : AEAD) (k : List Nat) (ivs : Ivs)
    (a : EmailAccount) : diskOkAccount (encryptAccount C k ivs a) = true := by
  show (sensFieldOk (encField C k ivs.iv1 a.auth.password) &&
    sensFieldOk (encField C k ivs.iv2 a.auth.accessToken) &&
    sensFieldOk (encField C k ivs.iv3 a.auth.refreshToken) &&
    sensFieldOk (encField C k ivs.iv4 a.auth.clientSecret)) = true
  rw [sensFieldOk_encField, sensFieldOk_encField, sensFieldOk_encField,
    sensFieldOk_encField]
  rfl

theorem decField_encField (C : AEAD) (k : List Nat) (iv : List Char)
    (v : Option (List Char))
    (hplain : plainFieldOk v = true)
    (hclean : cipherClean C k iv v = true) :
    decField C k (encField C k iv v) = (v, false) := by
  cases v with
  | none => rfl
  | some p =>
    have hp : isEncrypted p = false := by
      simpa [plainFieldOk] using hplain
    by_cases hnil : p = []
    · subst hnil
      rfl
    · rw [encField_of_plain C k iv p hnil hp]
      have hcl : (':' ∉ iv ∧ ':' ∉ (C.enc k iv p).1) ∧ ':' ∉ (C.enc k iv p).2 := by
        simpa [cipherClean] using hclean
      exact decField_of_ok C k (encryptLocal C k iv p) p
        (encryptLocal_ne_nil C k iv p) (isEncrypted_encryptLocal C k iv p)
        (decrypt_encryptLocal C k iv p hcl.1.1 hcl.1.2 hcl.2)

/-- Claim C3, amended: every store write preserves the on-disk invariant
that each populated sensitive field of each stored record is an
EncryptedValue; and a read inverts the write — decrypting an account the
store just encrypted returns the original record with all its sensitive
fields plaintext, with nothing logged — whenever the sensitive fields
going in were plaintext.  The second half of the claim as stated (every
read result has only plaintext populated sensitive fields, for every
stored document) is false: a stored field that fails to decrypt is
returned still in EncryptedValue form (see the counterexample). -/
theorem C3_invariant (C : AEAD) (k : List Nat) (ivs : Ivs) (id : List Char)
    (account : EmailAccount) (fs : AccountsFile) (a : EmailAccount) :
    (DiskInv fs → DiskInv (addAccount C k ivs account fs)) ∧
    (DiskInv fs → DiskInv (removeAccount id fs).2) ∧
    ((plainFieldOk a.auth.password && plainFieldOk a.auth.accessToken &&
      plainFieldOk a.auth.refreshToken && plainFieldOk a.auth.clientSecret) = true →
     (cipherClean C k ivs.iv1 a.auth.password &&
      cipherClean C k ivs.iv2 a.auth.accessToken &&
      cipherClean C k ivs.iv3 a.auth.refreshToken &&
      cipherClean C k ivs.iv4 a.auth.clientSecret) = true →
     (decryptAccount C k (encryptAccount C k ivs a)).1 = a ∧
     (decryptAccount C k (encryptAccount C k ivs a)).2 = [] ∧
     diskOkAccount (encryptAccount C k ivs a) = true) := by
  refine ⟨?_, ?_, ?_⟩
  · intro hinv
    rw [addAccount_eq]
    intro b hb
    rcases mem_upsertRaw _ b _ hb with rfl | hbl
    · exact diskOk_encryptAccount C k ivs (applyPreset account)
    · exact hinv b hbl
  · intro hinv
    cases fs with
    | absent => exact hinv
    | corrupt => exact hinv
    | doc l =>
      have hre : removeAccount id (.doc l) =
          if (l.filter (fun a => decide (¬ a.id = id))).length = l.length
          then (false, .doc l)
          else (true, .doc (l.filter (fun a => decide (¬ a.id = id)))) := rfl
      by_cases hlen : (l.filter (fun a => decide (¬ a.id = id))).length = l.length
      · rw [hre, if_pos hlen]
        exact hinv
      · rw [hre, if_neg hlen]
        intro b hb
        exact hinv b (List.mem_of_mem_filter hb)
  · intro hplains hcleans
    simp only [Bool.and_eq_true] at hplains hcleans
    have e1 := decField_encField C k ivs.iv1 a.auth.password hplains.1.1.1 hcleans.1.1.1
    have e2 := decField_encField C k ivs.iv2 a.auth.accessToken hplains.1.1.2 hcleans.1.1.2
    have e3 := decField_encField C k ivs.iv3 a.auth.refreshToken hplains.1.2 hcleans.1.2
    have e4 := decField_encField C k ivs.iv4 a.auth.clientSecret hplains.2 hcleans.2
    refine ⟨?_, ?_, diskOk_encryptAccount C k ivs a⟩
    · have hfst : (decryptAccount C k (encryptAccount C k ivs a)).1 =
          { a with auth := { a.auth with
              password := (decField C k (encField C k ivs.iv1 a.auth.password)).1,
              accessToken := (decField C k (encField C k ivs.iv2 a.auth.accessToken)).1,
              refreshToken := (decField C k (encField C k ivs.iv3 a.auth.refreshToken)).1,
              clientSecret := (decField C k (encField C k ivs.iv4 a.auth.clientSecret)).1 } } :=
        rfl
      rw [hfst, e1, e2, e3, e4]
    · have hsnd : (decryptAccount C k (encryptAccount C k ivs a)).2 =
          (if (decField C k (encField C k ivs.iv1 a.auth.password)).2
            then ["password".data] else []) ++
          (if (decField C k (encField C k ivs.iv2 a.auth.accessToken)).2
            then ["accessToken".data] else []) ++
          (if (decField C k (encField C k ivs.iv3 a.auth.refreshToken)).2
            then ["refreshToken".data] else []) ++
          (if (decField C k (encField C k ivs.iv4 a.auth.clientSecret)).2
            then ["clientSecret".data] else []) := rfl
      rw [hsnd, e1, e2, e3, e4]
      rfl

/-- Witness for C3: the disk invariant is preserved by a concrete upsert
and a concrete removal over a valid one-record document, and
decrypt-after-encrypt restores the concrete plaintext record. -/
theorem C3_invariant_witness :
    DiskInv (addAccount plainAEAD [] ivs0 acctPlain1 (.doc [acctMixed])) ∧
    DiskInv (removeAccount "bob-example-com".data (.doc [acctMixed])).2 ∧
    (decryptAccount plainAEAD [] (encryptAccount plainAEAD [] ivs0 acctPlain1)).1
      = acctPlain1 := by
  have h := C3_invariant plainAEAD [] ivs0 "bob-example-com".data acctPlain1
    (.doc [acctMixed]) acctPlain1
  exact ⟨h.1 (by decide), h.2.1 (by decide), (h.2.2 (by decide) (by decide)).1⟩

/-- Claim C3 as stated is false: a stored document satisfying the on-disk
invariant (all populated sensitive fields tagged) whose access token does
not decrypt yields a read result whose populated access token field is
still an EncryptedValue, not plaintext. -/
theorem C3_counterexample :
    DiskInv (.doc [acctMixed]) ∧
    (getAccounts plainAEAD [] (.doc [acctMixed])).map
        (fun r => plainFieldOk r.auth.accessToken)
      = [false] :=
  ⟨by decide, rfl⟩

/-! ## Claim C8 -/

/-- Claim C8 is contradicted by the code: the preset spread in addAccount
is shallow, and the account object built by the add_email_account tool
always carries complete imap and smtp objects (host defaulting to the
empty string), so a gmail account added without a caller-supplied
imap_host is stored with an empty imap host — the nested preset default
`imap.gmail.com` is never applied to the unset nested field. -/
theorem C8_preset_not_applied :
    (buildAccount argsGmail).provider = .gmail ∧
    (buildAccount argsGmail).imap.host = [] ∧
    (PROVIDER_PRESETS .gmail).imap.host = "imap.gmail.com".data ∧
    (rawOf (addAccount plainAEAD [] ivs0 (buildAccount argsGmail) .absent)).map
        (fun a => (a.imap.host, a.smtp.host))
      = [([], [])] ∧
    ([] : List Char) ≠ "imap.gmail.com".data :=
  ⟨rfl, rfl, rfl, rfl, by decide⟩

end MailVault
